import Mathlib

/-!
Shallow embedding of `src/index.ts` of the zmpack repository: a staged
pipeline that packages a project directory into a timestamped zip archive.

The filesystem is modelled as a finite tree of named entries (`Entry` and
`Entries`); paths are segment lists.  The process-wide mutable state that
the program manipulates (filesystem, current working directory, emitted
log4js entries, produced archives) is collected in the record `St`.
Fallible operations return `Except (String × St) St`, carrying the state
at the point of failure, which mirrors a rejected promise bubbling out of
the `async` functions of the source.  Shell execution
(`child_process.exec`) and JSON decoding are external collaborators and
enter as oracle parameters.
-/

namespace ZmPack

/-- Log4js severity levels used by the source (`trace`, `info`, `warn`,
`error`). -/
inductive LogLevel where
  | trace
  | info
  | warn
  | error
deriving DecidableEq, Repr

/-- One emitted log record: severity, logger name (`main`, `action`,
`copy`, `archiver`) and rendered message. -/
structure LogEntry where
  level : LogLevel
  logger : String
  msg : String
deriving DecidableEq, Repr

mutual

/-- A filesystem object: a regular file with its byte content (modelled
as a `String`), a directory with its named children, or any other kind of
entry (socket, device, symlink...), which `fs.Stats` reports as neither
`isFile()` nor `isDirectory()`. -/
inductive Entry where
  | file (content : String)
  | other
  | dir (entries : Entries)

/-- The ordered children of a directory, as `fs.readdir` would list
them. -/
inductive Entries where
  | nil
  | cons (name : String) (entry : Entry) (rest : Entries)

end

/-- Child lookup by name inside one directory level. -/
def findE : Entries → String → Option Entry
  | .nil, _ => none
  | .cons m e rest, n => if m = n then some e else findE rest n

/-- Replace the child named `n` (or append it if absent). -/
def setE : Entries → String → Entry → Entries
  | .nil, n, v => .cons n v .nil
  | .cons m e rest, n, v =>
    if m = n then .cons m v rest else .cons m e (setE rest n v)

/-- Remove the child named `n`. -/
def removeE : Entries → String → Entries
  | .nil, _ => .nil
  | .cons m e rest, n =>
    if m = n then removeE rest n else .cons m e (removeE rest n)

/-- Set or remove a child, depending on the optional value. -/
def setOptE (es : Entries) (n : String) : Option Entry → Entries
  | some v => setE es n v
  | none => removeE es n

/-- Resolve a path (list of segments) against a tree, like the Node `fs`
calls resolve an absolute path. -/
def lookupE : Entry → List String → Option Entry
  | e, [] => some e
  | .dir es, n :: p =>
    match findE es n with
    | some c => lookupE c p
    | none => none
  | .file _, _ :: _ => none
  | .other, _ :: _ => none

/-- Write `some v` (create/overwrite) or `none` (delete) at a path.  A
path that does not resolve up to its last segment leaves the tree
unchanged; the pipeline only writes at paths whose parent directory
exists, matching the single-level `fs.mkdir` of the source. -/
def updateE : Entry → List String → Option Entry → Entry
  | e, [], v => v.getD e
  | .dir es, [n], v => .dir (setOptE es n v)
  | .dir es, n :: m :: q, v =>
    match findE es n with
    | some c => .dir (setE es n (updateE c (m :: q) v))
    | none => .dir es
  | .file c, _ :: _, _ => .file c
  | .other, _ :: _, _ => .other

mutual

/-- True when the tree contains an entry that is neither a file nor a
directory. -/
def hasOtherE : Entry → Bool
  | .file _ => false
  | .other => true
  | .dir es => hasOtherEs es

/-- List version of `hasOtherE`. -/
def hasOtherEs : Entries → Bool
  | .nil => false
  | .cons _ e rest => hasOtherE e || hasOtherEs rest

end

/-- Render a segment path the way the source's absolute path strings
look in log and error messages. -/
def renderPath (p : List String) : String :=
  String.intercalate ("/") p

/-- Whether `base` is a prefix of `p`, i.e. `p` denotes `base` itself or
something inside the subtree rooted at `base`. -/
def isPathUnder : List String → List String → Bool
  | [], _ => true
  | _ :: _, [] => false
  | b :: bs, x :: xs => b = x && isPathUnder bs xs

/-- Process-wide state of one run: the filesystem tree, the current
working directory (`process.chdir` target), the log4js records emitted so
far, and the zip archives produced so far (archive path paired with the
archived directory snapshot). -/
structure St where
  fs : Entry
  cwd : List String
  logs : List LogEntry
  archives : List (String × Option Entry)

/-- External shell collaborator (`child_process.exec`): a command line
and a working directory transform the filesystem or fail (non-zero exit
or spawn failure reject the promisified call). -/
def ExecOracle : Type :=
  String → List String → Entry → Except String Entry

/-- The `Configuration` interface of `src/index.ts`: actions are string
arrays tagged by their first element. -/
structure Configuration where
  name : String
  targetPath : String
  copyBefore : List (List String)
  copyAfter : List (List String)
  files : List String
  packBefore : List (List String)
  packAfter : List (List String)

/-! ### Timestamp (processConfig, lines 52-60 of `src/index.ts`) -/

/-- `n.toString().padStart(2, '0')` for a natural number. -/
def pad2 (n : Nat) : String :=
  if n < 10 then "0" ++ toString n else toString n

/-- Sakamoto month offsets used to compute the day of the week. -/
def monthKey : Nat → Nat
  | 1 => 0
  | 2 => 3
  | 3 => 2
  | 4 => 5
  | 5 => 0
  | 6 => 3
  | 7 => 5
  | 8 => 1
  | 9 => 4
  | 10 => 6
  | 11 => 2
  | 12 => 4
  | _ => 0

/-- Day of the week (0 = Sunday ... 6 = Saturday) of a Gregorian
calendar date, by Sakamoto's method. -/
def dayOfWeek (y m d : Nat) : Nat :=
  let yy := if m < 3 then y - 1 else y
  (yy + yy / 4 + yy / 400 + monthKey m + d - yy / 100) % 7

/-- A wall-clock instant in calendar terms: `month` is the calendar
month 1..12 and `day` the day of the month 1..31. -/
structure WallClock where
  year : Nat
  month : Nat
  day : Nat
  hours : Nat
  minutes : Nat
  seconds : Nat
deriving DecidableEq, Repr

/-- JavaScript `Date#getFullYear`. -/
def getFullYear (t : WallClock) : Nat := t.year

/-- JavaScript `Date#getMonth`: the zero-based month index 0..11, not
the calendar month. -/
def getMonth (t : WallClock) : Nat := t.month - 1

/-- JavaScript `Date#getDay`: the day of the week 0..6, not the day of
the month. -/
def getDay (t : WallClock) : Nat := dayOfWeek t.year t.month t.day

/-- JavaScript `Date#getDate`: the day of the month. -/
def getDate (t : WallClock) : Nat := t.day

/-- JavaScript `Date#getHours`. -/
def getHours (t : WallClock) : Nat := t.hours

/-- JavaScript `Date#getMinutes`. -/
def getMinutes (t : WallClock) : Nat := t.minutes

/-- JavaScript `Date#getSeconds`. -/
def getSeconds (t : WallClock) : Nat := t.seconds

/-- The `timeText` string of `processConfig`, exactly as the source
builds it: unpadded `getFullYear()`, then two-digit padded `getMonth()`,
`getDay()`, `getHours()`, `getMinutes()`, `getSeconds()`. -/
def timeText (t : WallClock) : String :=
  toString (getFullYear t) ++ pad2 (getMonth t) ++ pad2 (getDay t) ++
    pad2 (getHours t) ++ pad2 (getMinutes t) ++ pad2 (getSeconds t)

/-- The timestamp as the specification describes it: unpadded year
followed by the zero-padded two-digit calendar month, day of month,
hours, minutes and seconds.  Stated from the spec's words, for
comparison with `timeText`. -/
def specTimestampText (t : WallClock) : String :=
  toString t.year ++ pad2 t.month ++ pad2 t.day ++
    pad2 t.hours ++ pad2 t.minutes ++ pad2 t.seconds

/-- Staging directory name `{config.name}-{timeText}`. -/
def tempDirNameOf (config : Configuration) (t : WallClock) : String :=
  config.name ++ "-" ++ timeText t

/-- Staging directory path under the system temp root. -/
def tempDirPathOf (config : Configuration) (t : WallClock)
    (tempPath : List String) : List String :=
  tempPath ++ [tempDirNameOf config t]

/-- Archive file name `{config.name}.{timeText}.zip`. -/
def targetFileNameOf (config : Configuration) (t : WallClock) : String :=
  config.name ++ "." ++ timeText t ++ ".zip"

/-- `Path.join` on the string side, for the target archive path. -/
def pathJoinS (a b : String) : String :=
  a ++ "/" ++ b

/-! ### rmDirectoryRecursive (lines 117-131 of `src/index.ts`) -/

mutual

/-- Removability check-and-walk of one entry at `itemPath`, following the
per-item dispatch of `rmDirectoryRecursive`: a file is unlinked, a
directory is recursed into, anything else throws.  The state change
(removal of the whole subtree) is applied by the caller
`rmDirectoryRecursive` on success. -/
def rmEntry : List String → Entry → Except String Unit
  | _, .file _ => Except.ok ()
  | itemPath, .other =>
    Except.error
      (s!"cannot remove \"{renderPath itemPath}\", is not either a file or directory")
  | itemPath, .dir es => rmEntriesAux itemPath es

/-- Iteration of `rmDirectoryRecursive` over the `readdir` listing of
`dirPath`, stopping at the first unsupported entry. -/
def rmEntriesAux : List String → Entries → Except String Unit
  | _, .nil => Except.ok ()
  | dirPath, .cons n e rest =>
    match rmEntry (dirPath ++ [n]) e with
    | .ok _ => rmEntriesAux dirPath rest
    | .error m => Except.error m

end

/-- `rmDirectoryRecursive(dirPath)`: recursively delete every file and
subdirectory under `dirPath`, then remove the now-empty directory itself
(`fsRmdir`).  An entry that is neither file nor directory rejects with
the `cannot remove` error; `readdir` on a missing or non-directory path
also rejects. -/
def rmDirectoryRecursive (dirPath : List String) (s : St) :
    Except (String × St) St :=
  match lookupE s.fs dirPath with
  | some (.dir es) =>
    match rmEntriesAux dirPath es with
    | .ok _ => Except.ok { s with fs := updateE s.fs dirPath none }
    | .error m => Except.error (m, s)
  | some _ =>
    Except.error (s!"readdir failed on \"{renderPath dirPath}\"", s)
  | none =>
    Except.error (s!"no such directory \"{renderPath dirPath}\"", s)

/-! ### processActions (lines 80-115 of `src/index.ts`) -/

/-- The `case 'delete'` branch of the action loop: log the `DELETE`
info entry, resolve the item against the declared working directory,
then unlink a file, recursively remove a directory, warn on any other
entry kind, and do nothing at all when the path does not exist. -/
def deleteActionStep (wp : List String) (itemName : String) (s : St) :
    Except (String × St) St :=
  let s1 :=
    { s with logs := s.logs ++ [⟨.info, "action", s!"DELETE \"{itemName}\""⟩] }
  let itemPath := wp ++ [itemName]
  match lookupE s1.fs itemPath with
  | none => Except.ok s1
  | some (.file _) => Except.ok { s1 with fs := updateE s1.fs itemPath none }
  | some (.dir _) => rmDirectoryRecursive itemPath s1
  | some .other =>
    Except.ok
      { s1 with logs := s1.logs ++
          [⟨.warn, "action",
            s!"path \"{renderPath itemPath}\" is not either file or directory"⟩] }

/-- The `case 'command'` branch of the action loop: log the `COMMAND`
info entry, then run the command line through the shell collaborator in
the declared working directory; a rejected execution becomes a stage
failure. -/
def commandActionStep (exec : ExecOracle) (commandLine : String)
    (wp : List String) (s : St) : Except (String × St) St :=
  let s1 :=
    { s with logs := s.logs ++
        [⟨.info, "action", s!"COMMAND \"{commandLine}\""⟩] }
  match exec commandLine wp s1.fs with
  | .ok fs2 => Except.ok { s1 with fs := fs2 }
  | .error m => Except.error (m, s1)

/-- One iteration of the `for (const action of actions)` loop of
`processActions`: dispatch on `action[0]` (`delete` / `command` /
unknown tag). -/
def processAction (exec : ExecOracle) (stageName : String)
    (wp : List String) (action : List String) (s : St) :
    Except (String × St) St :=
  let actionType := action.headD ("undefined")
  if actionType = "delete" then
    deleteActionStep wp (action.getD 1 ("undefined")) s
  else if actionType = "command" then
    commandActionStep exec (action.getD 1 ("undefined")) wp s
  else
    Except.ok
      { s with logs := s.logs ++
          [⟨.warn, "main", s!"unknown action \"{actionType}\" in {stageName}"⟩] }

/-- The action loop of `processActions`: actions run strictly in array
order, and a failing action rethrows, skipping every remaining
action. -/
def processActionsGo (exec : ExecOracle) (stageName : String)
    (wp : List String) :
    List (List String) → St → Except (String × St) St
  | [], s => Except.ok s
  | action :: rest, s =>
    match processAction exec stageName wp action s with
    | .ok s1 => processActionsGo exec stageName wp rest s1
    | .error e => Except.error e

/-- The `chdir to` trace entry emitted at the head of `processActions`
and of `processPack`. -/
def chdirTrace (wp : List String) : LogEntry :=
  ⟨.trace, "action", s!"chdir to \"{renderPath wp}\""⟩

/-- `processActions(stageName, workingPath, actions)`: switch the
process-wide working directory to `workingPath` (logging the switch),
then run the actions in array order. -/
def processActions (exec : ExecOracle) (stageName : String)
    (wp : List String) (actions : List (List String)) (s : St) :
    Except (String × St) St :=
  processActionsGo exec stageName wp actions
    { s with cwd := wp, logs := s.logs ++ [chdirTrace wp] }

/-! ### processCopy / copyDirectory (lines 133-173 of `src/index.ts`) -/

/-- Directory children of an optional entry; an absent or non-directory
target is treated as the empty listing the `fsMkdir` of `copyDirectory`
would create. -/
def dirEntriesOf : Option Entry → Entries
  | some (.dir es) => es
  | _ => .nil

mutual

/-- Copy of one source entry over an existing target entry, following
the per-item dispatch of `copyDirectory`: a file is byte-copied
(overwriting), a directory is recursively mirrored, and any other entry
kind is skipped silently (`copyDirectory` has no `else` branch: no log,
no error). -/
def copyEntry : Entry → Option Entry → Option Entry
  | .file c, _ => some (.file c)
  | .dir ses, t => some (.dir (copyEntriesM ses (dirEntriesOf t)))
  | .other, _ => none

/-- Iteration of `copyDirectory` over the `readdir` listing of the
source, threading the target directory's children. -/
def copyEntriesM : Entries → Entries → Entries
  | .nil, tes => tes
  | .cons n e rest, tes =>
    copyEntriesM rest
      (match copyEntry e (findE tes n) with
       | some e2 => setE tes n e2
       | none => tes)

end

/-- `copyDirectory(sourcePath, targetPath)`: create the target directory
when missing, then mirror every source entry into it.  Only invoked by
the pipeline when `sourcePath` stats as a directory; on any other source
the model leaves the state unchanged. -/
def copyDirectory (sourcePath targetPath : List String) (s : St) : St :=
  match lookupE s.fs sourcePath with
  | some (.dir ses) =>
    let tes := dirEntriesOf (lookupE s.fs targetPath)
    { s with fs := updateE s.fs targetPath (some (.dir (copyEntriesM ses tes))) }
  | _ => s

/-- The `for (const itemName of files)` loop of `processCopy`: a missing
source is warned about and skipped, a file is byte-copied, a directory is
recursively copied, and any other entry kind is warned about and
skipped. -/
def processCopyGo (wp tgt : List String) :
    List String → St → St
  | [], s => s
  | itemName :: rest, s =>
    let sourceItemPath := wp ++ [itemName]
    let targetItemPath := tgt ++ [itemName]
    match lookupE s.fs sourceItemPath with
    | none =>
      processCopyGo wp tgt rest
        { s with logs := s.logs ++
            [⟨.warn, "copy",
              s!"item \"{renderPath sourceItemPath}\" not exists, skip"⟩] }
    | some (.file c) =>
      processCopyGo wp tgt rest
        { s with
            logs := s.logs ++ [⟨.trace, "copy", s!"copy file \"{itemName}\""⟩],
            fs := updateE s.fs targetItemPath (some (.file c)) }
    | some (.dir _) =>
      processCopyGo wp tgt rest
        (copyDirectory sourceItemPath targetItemPath
          { s with logs := s.logs ++
              [⟨.trace, "copy", s!"copy directory \"{itemName}\""⟩] })
    | some .other =>
      processCopyGo wp tgt rest
        { s with logs := s.logs ++
            [⟨.warn, "copy",
              s!"item \"{renderPath sourceItemPath}\" is not either a file or a directory"⟩] }

/-- `processCopy(workingPath, targetPath, files)`: create the staging
directory when missing, then copy each configured name from the project
root into it. -/
def processCopy (wp tgt : List String) (files : List String) (s : St) : St :=
  let s1 :=
    if (lookupE s.fs tgt).isSome then s
    else { s with fs := updateE s.fs tgt (some (.dir .nil)) }
  processCopyGo wp tgt files s1

/-! ### processPack (lines 175-216 of `src/index.ts`) -/

/-- `processPack(workingPath, targetFilePath)`: log the `chdir to` trace
(the source logs it without actually changing directory), then hand the
staging tree to the external Archiver collaborator, which writes the zip
at `targetFilePath` (a path outside the modelled tree) with the staging
directory's contents at the archive root.  The model records the
produced archive as a pair of the target path and the archived
snapshot. -/
def processPack (wp : List String) (targetFilePath : String) (s : St) :
    Except (String × St) St :=
  let s1 := { s with logs := s.logs ++ [chdirTrace wp] }
  Except.ok
    { s1 with archives := s1.archives ++ [(targetFilePath, lookupE s1.fs wp)] }

/-! ### processConfig (lines 49-78 of `src/index.ts`) -/

/-- An informational entry of the `main` logger (the stage markers `run
copyBefore`, `run copy`, ...). -/
def mainInfo (m : String) : LogEntry :=
  ⟨.info, "main", m⟩

/-- Append one `run <stage>` marker of the `main` logger, as
`mainLogger.info('run ...')` does before each stage. -/
def stageMarker (m : String) (s : St) : St :=
  { s with logs := s.logs ++ [mainInfo m] }

/-- `processConfig(config)`: the six-stage pipeline.  Note the faithful
quirks of the source: the `packBefore` and `packAfter` stages are run
with the stage-name literal `'copyBefore'` (lines 68 and 74), and the
timestamp `timeText` is shared by the staging directory name and the
archive file name.  The final steps restore the working directory and
delete the staging directory. -/
def processConfig (exec : ExecOracle) (t : WallClock)
    (config : Configuration) (workingPath tempPath : List String)
    (s : St) : Except (String × St) (String × St) :=
  match processActions exec ("copyBefore") workingPath config.copyBefore
      (stageMarker ("run copyBefore") s) with
  | .error e => Except.error e
  | .ok s1 =>
    match processActions exec ("copyAfter") workingPath config.copyAfter
        (stageMarker ("run copyAfter")
          (processCopy workingPath (tempDirPathOf config t tempPath)
            config.files (stageMarker ("run copy") s1))) with
    | .error e => Except.error e
    | .ok s5 =>
      match processActions exec ("copyBefore") (tempDirPathOf config t tempPath)
          config.packBefore (stageMarker ("run packBefore") s5) with
      | .error e => Except.error e
      | .ok s7 =>
        match processPack (tempDirPathOf config t tempPath)
            (pathJoinS config.targetPath (targetFileNameOf config t))
            (stageMarker ("run pack") s7) with
        | .error e => Except.error e
        | .ok s9 =>
          match processActions exec ("copyBefore")
              (tempDirPathOf config t tempPath) config.packAfter
              (stageMarker ("run packAfter") s9) with
          | .error e => Except.error e
          | .ok s11 =>
            match rmDirectoryRecursive (tempDirPathOf config t tempPath)
                { s11 with cwd := workingPath } with
            | .error e => Except.error e
            | .ok s13 =>
              Except.ok
                (pathJoinS config.targetPath (targetFileNameOf config t), s13)

/-! ### readConfig / main (lines 27-47 of `src/index.ts`) -/

/-- `readConfig('zmpack.json')`: reject with `"zmpack.json" is required`
when the file does not exist in the invocation directory, otherwise read
and JSON-decode it (decoding is the external `JSON.parse`, passed as an
oracle). -/
def readConfig (decode : String → Configuration) (wp : List String)
    (s : St) : Except (String × St) Configuration :=
  match lookupE s.fs (wp ++ ["zmpack.json"]) with
  | none => Except.error (s!"\"zmpack.json\" is required", s)
  | some (.file content) => Except.ok (decode content)
  | some _ => Except.error (s!"read of \"zmpack.json\" failed", s)

/-- The whole program: `main().catch(err => mainLogger.error(err))`.  A
successful run logs `packed on "<path>"`; any rejection is caught by the
single top-level handler, which only logs it.  The program never calls
`process.exit` and the caught rejection is handled, so the Node process
terminates with status 0 on the error path as well as on the success
path; the second component is that exit status. -/
def mainRun (exec : ExecOracle) (decode : String → Configuration)
    (t : WallClock) (wp tempPath : List String) (s : St) :
    List LogEntry × Nat :=
  match readConfig decode wp s with
  | .error (e, s2) => (s2.logs ++ [⟨.error, "main", e⟩], 0)
  | .ok config =>
    match processConfig exec t config wp tempPath s with
    | .error (e, s2) => (s2.logs ++ [⟨.error, "main", e⟩], 0)
    | .ok (targetFilePath, s2) =>
      (s2.logs ++ [⟨.info, "main", s!"packed on \"{targetFilePath}\""⟩], 0)

/-! ### Concrete fixtures used by the witnesses -/

/-- A shell oracle whose commands always succeed without touching the
filesystem. -/
def execOk : ExecOracle := fun _ _ fs => Except.ok fs

/-- A shell oracle on which the command line `false` exits non-zero
(rejecting the promisified `exec`) and every other command succeeds. -/
def execFalseFails : ExecOracle := fun c _ fs =>
  if c = "false" then Except.error ("Command failed: false") else Except.ok fs

/-- Sample wall clock: 2021-01-05 12:30:45, a Tuesday. -/
def wc0 : WallClock := ⟨2021, 1, 5, 12, 30, 45⟩

/-- Sample project tree: `a.txt` ("hi") and `sub/b.txt` ("x"). -/
def projFs : Entry :=
  .dir (.cons ("proj")
    (.dir (.cons ("a.txt") (.file ("hi"))
      (.cons ("sub") (.dir (.cons ("b.txt") (.file ("x")) .nil)) .nil)))
    (.cons ("tmp") (.dir .nil) .nil))

/-- Initial state over `projFs`, working directory `proj`. -/
def st0 : St := ⟨projFs, ["proj"], [], []⟩

/-- Sample configuration from §8 of the spec. -/
def cfg0 : Configuration :=
  ⟨"demo", "/out", [], [], ["a.txt", "sub"], [], []⟩

/-! ### Result-state projections and log entry classes -/

/-- The state carried by a stage result, on success as well as at the
point of failure. -/
def resSt : Except (String × St) St → St
  | .ok s => s
  | .error e => e.2

/-- Shape of every log entry emitted inside a stage (as opposed to the
`run ...` markers and the top-level error of `main`): never
`error`-level, and on the `main` logger only the `unknown action`
warning. -/
def sideLog (l : LogEntry) : Prop :=
  l.level ≠ LogLevel.error ∧ (l.logger = "main" → l.level = LogLevel.warn)

/-- The state carried by a pipeline result, on success or at the point
of failure. -/
def pipeSt : Except (String × St) (String × St) → St
  | .ok r => r.2
  | .error e => e.2

/-- Entries all below the `error` severity. -/
def errFree (l : List LogEntry) : Prop :=
  ∀ x ∈ l, x.level ≠ LogLevel.error

/-! ### Further concrete fixtures -/

/-- Configuration whose `packBefore` stage holds one unrecognized
action. -/
def cfg4 : Configuration :=
  ⟨"demo", "/out", [], [], [], [["noop"]], []⟩

/-- Initial state whose project root holds one entry that is neither a
file nor a directory. -/
def stOther : St :=
  ⟨.dir (.cons ("proj") (.dir (.cons ("weird") .other .nil)) .nil),
    ["proj"], [], []⟩

/-- Initial state with no `zmpack.json` in the invocation directory. -/
def stNoCfg : St :=
  ⟨.dir (.cons ("proj") (.dir .nil) .nil), ["proj"], [], []⟩

/-- A decoding oracle (external `JSON.parse`). -/
def decode0 : String → Configuration := fun _ => cfg0

/-- State whose directory `d` holds only files and directories. -/
def stClean : St :=
  ⟨.dir (.cons ("d") (.dir (.cons ("f") (.file ("1"))
    (.cons ("e") (.dir .nil) .nil))) .nil), [], [], []⟩

/-- State whose directory `d` holds an entry that is neither file nor
directory. -/
def stDirty : St :=
  ⟨.dir (.cons ("d") (.dir (.cons ("x") .other .nil)) .nil), [], [], []⟩

/-- Configuration whose `copyBefore` stage deletes `d`. -/
def cfgDel : Configuration :=
  ⟨"a", "/o", [["delete", "d"]], [], [], [], []⟩

/-- Configuration whose `packBefore` stage starts with a failing shell
command. -/
def cfg8 : Configuration :=
  ⟨"demo", "/out", [], [], [], [["command", "false"]], []⟩

/-! ### Lemmas about directory listings -/

theorem findE_setE_self : ∀ (es : Entries) (n : String) (v : Entry),
    findE (setE es n v) n = some v
  | .nil, n, v => by simp [setE, findE]
  | .cons m e rest, n, v => by
    by_cases h : m = n
    · simp [setE, findE, h]
    · simp [setE, findE, h, findE_setE_self rest n v]

theorem findE_setE_ne : ∀ (es : Entries) (n a : String) (v : Entry),
    a ≠ n → findE (setE es n v) a = findE es a
  | .nil, n, a, v, h => by simp [setE, findE, Ne.symm h]
  | .cons m e rest, n, a, v, h => by
    by_cases hm : m = n
    · subst hm
      simp [setE, findE, Ne.symm h]
    · simp only [setE, if_neg hm, findE]
      by_cases ha : m = a
      · simp [ha]
      · simp [ha, findE_setE_ne rest n a v h]

theorem findE_removeE_self : ∀ (es : Entries) (n : String),
    findE (removeE es n) n = none
  | .nil, n => by simp [removeE, findE]
  | .cons m e rest, n => by
    by_cases h : m = n
    · simp [removeE, h, findE_removeE_self rest n]
    · simp [removeE, findE, h, findE_removeE_self rest n]

theorem findE_removeE_ne : ∀ (es : Entries) (n a : String),
    a ≠ n → findE (removeE es n) a = findE es a
  | .nil, n, a, h => by simp [removeE]
  | .cons m e rest, n, a, h => by
    by_cases hm : m = n
    · subst hm
      simp [removeE, findE, Ne.symm h, findE_removeE_ne rest m a h]
    · simp only [removeE, if_neg hm, findE]
      by_cases ha : m = a
      · simp [ha]
      · simp [ha, findE_removeE_ne rest n a h]

theorem findE_setOptE_self (es : Entries) (n : String) (v : Option Entry) :
    findE (setOptE es n v) n = v := by
  cases v with
  | some w => simp [setOptE, findE_setE_self]
  | none => simp [setOptE, findE_removeE_self]

theorem findE_setOptE_ne (es : Entries) (n a : String) (v : Option Entry)
    (h : a ≠ n) : findE (setOptE es n v) a = findE es a := by
  cases v with
  | some w => simp [setOptE, findE_setE_ne es n a w h]
  | none => simp [setOptE, findE_removeE_ne es n a h]

/-! ### Lemmas about path lookup and update -/

theorem lookupE_append : ∀ (p q : List String) (e : Entry),
    lookupE e (p ++ q) = (lookupE e p).bind (fun c => lookupE c q)
  | [], q, e => by simp [lookupE]
  | n :: p, q, .file c => by simp [lookupE]
  | n :: p, q, .other => by simp [lookupE]
  | n :: p, q, .dir es => by
    simp only [List.cons_append, lookupE]
    cases findE es n with
    | none => simp
    | some c => simp [lookupE_append p q c]

theorem lookupE_updateE_self : ∀ (p : List String) (e : Entry)
    (v : Option Entry),
    (lookupE e p).isSome → p ≠ [] → lookupE (updateE e p v) p = v
  | [], _, _, _, hne => absurd rfl hne
  | [n], .file c, v, hs, _ => by simp [lookupE] at hs
  | [n], .other, v, hs, _ => by simp [lookupE] at hs
  | [n], .dir es, v, hs, _ => by
    simp [updateE, lookupE, findE_setOptE_self es n v]
    cases v with
    | some w => simp [lookupE]
    | none => simp
  | n :: m :: q, .file c, v, hs, _ => by simp [lookupE] at hs
  | n :: m :: q, .other, v, hs, _ => by simp [lookupE] at hs
  | n :: m :: q, .dir es, v, hs, _ => by
    simp only [lookupE] at hs
    cases hf : findE es n with
    | none => rw [hf] at hs; simp at hs
    | some c =>
      rw [hf] at hs
      simp only [updateE, hf, lookupE, findE_setE_self es n]
      exact lookupE_updateE_self (m :: q) c v hs (by simp)

theorem lookupE_updateE_frame : ∀ (p : List String) (e : Entry)
    (q : List String) (v : Option Entry),
    isPathUnder p q = false → isPathUnder q p = false →
    lookupE (updateE e p v) q = lookupE e q
  | [], _, q, _, h1, _ => by simp [isPathUnder] at h1
  | n :: ps, e, [], v, _, h2 => by simp [isPathUnder] at h2
  | n :: ps, .file c, a :: qs, v, _, _ => by simp [updateE]
  | n :: ps, .other, a :: qs, v, _, _ => by simp [updateE]
  | [n], .dir es, a :: qs, v, h1, h2 => by
    by_cases ha : a = n
    · subst ha
      simp [isPathUnder] at h1
    · simp [updateE, lookupE, findE_setOptE_ne es n a v ha]
  | n :: m :: pq, .dir es, a :: qs, v, h1, h2 => by
    cases hf : findE es n with
    | none => simp [updateE, hf]
    | some c =>
      by_cases ha : a = n
      · subst ha
        simp only [isPathUnder] at h1 h2
        simp at h1 h2
        simp only [updateE, hf, lookupE, findE_setE_self es a]
        rw [lookupE_updateE_frame (m :: pq) c qs v h1 h2]
      · simp [updateE, hf, lookupE, findE_setE_ne es n a _ ha]

/-! ### Lemmas about path comparison -/

theorem isPathUnder_self_append : ∀ (p l : List String),
    isPathUnder p (p ++ l) = true
  | [], l => rfl
  | b :: bs, l => by simp [isPathUnder, isPathUnder_self_append bs l]

theorem isPathUnder_trans : ∀ (a b c : List String),
    isPathUnder a b = true → isPathUnder b c = true →
    isPathUnder a c = true
  | [], _, _, _, _ => rfl
  | x :: xs, [], _, h1, _ => by simp [isPathUnder] at h1
  | x :: xs, y :: ys, [], _, h2 => by simp [isPathUnder] at h2
  | x :: xs, y :: ys, z :: zs, h1, h2 => by
    simp only [isPathUnder, Bool.and_eq_true, decide_eq_true_eq] at h1 h2 ⊢
    exact ⟨h1.1.trans h2.1, isPathUnder_trans xs ys zs h1.2 h2.2⟩

theorem isPathUnder_comparable : ∀ (a b c : List String),
    isPathUnder a c = true → isPathUnder b c = true →
    isPathUnder a b = true ∨ isPathUnder b a = true
  | [], _, _, _, _ => Or.inl rfl
  | _ :: _, [], _, _, _ => Or.inr rfl
  | x :: xs, y :: ys, [], h1, _ => by simp [isPathUnder] at h1
  | x :: xs, y :: ys, z :: zs, h1, h2 => by
    simp only [isPathUnder, Bool.and_eq_true, decide_eq_true_eq] at h1 h2 ⊢
    rcases isPathUnder_comparable xs ys zs h1.2 h2.2 with h | h
    · exact Or.inl ⟨h1.1.trans h2.1.symm, h⟩
    · exact Or.inr ⟨h2.1.trans h1.1.symm, h⟩

/-! ### Lemmas about recursive removal -/

mutual

theorem rmE_ok : ∀ (e : Entry) (p : List String),
    hasOtherE e = false → rmEntry p e = Except.ok ()
  | .file _, _, _ => rfl
  | .other, _, h => by simp [hasOtherE] at h
  | .dir es, p, h => by
    simp only [hasOtherE] at h
    simpa [rmEntry] using rmEs_ok es p h

theorem rmEs_ok : ∀ (es : Entries) (p : List String),
    hasOtherEs es = false → rmEntriesAux p es = Except.ok ()
  | .nil, _, _ => rfl
  | .cons n e rest, p, h => by
    simp only [hasOtherEs, Bool.or_eq_false_iff] at h
    simp [rmEntriesAux, rmE_ok e (p ++ [n]) h.1, rmEs_ok rest p h.2]

end

mutual

theorem rmE_err : ∀ (e : Entry) (p : List String),
    hasOtherE e = true → ∃ m, rmEntry p e = Except.error m
  | .other, p, _ => ⟨_, rfl⟩
  | .file _, _, h => by simp [hasOtherE] at h
  | .dir es, p, h => by
    simp only [hasOtherE] at h
    simpa [rmEntry] using rmEs_err es p h

theorem rmEs_err : ∀ (es : Entries) (p : List String),
    hasOtherEs es = true → ∃ m, rmEntriesAux p es = Except.error m
  | .nil, _, h => by simp [hasOtherEs] at h
  | .cons n e rest, p, h => by
    by_cases he : hasOtherE e = true
    · obtain ⟨m, hm⟩ := rmE_err e (p ++ [n]) he
      exact ⟨m, by simp [rmEntriesAux, hm]⟩
    · simp only [Bool.not_eq_true] at he
      simp only [hasOtherEs, he, Bool.false_or] at h
      obtain ⟨m, hm⟩ := rmEs_err rest p h
      exact ⟨m, by simp [rmEntriesAux, rmE_ok e (p ++ [n]) he, hm]⟩

end

theorem rmDir_ok (dirPath : List String) (s : St) (es : Entries)
    (hl : lookupE s.fs dirPath = some (.dir es))
    (hclean : hasOtherEs es = false) :
    rmDirectoryRecursive dirPath s
      = Except.ok { s with fs := updateE s.fs dirPath none } := by
  simp [rmDirectoryRecursive, hl, rmEs_ok es dirPath hclean]

theorem rmDir_err (dirPath : List String) (s : St) (es : Entries)
    (hl : lookupE s.fs dirPath = some (.dir es))
    (hdirty : hasOtherEs es = true) :
    ∃ m, rmDirectoryRecursive dirPath s = Except.error (m, s) := by
  obtain ⟨m, hm⟩ := rmEs_err es dirPath hdirty
  exact ⟨m, by simp [rmDirectoryRecursive, hl, hm]⟩

theorem rmDir_ok_inv (dirPath : List String) (s s' : St)
    (h : rmDirectoryRecursive dirPath s = Except.ok s') :
    s'.fs = updateE s.fs dirPath none ∧ s'.logs = s.logs ∧
      s'.archives = s.archives ∧ s'.cwd = s.cwd ∧
      (lookupE s.fs dirPath).isSome := by
  unfold rmDirectoryRecursive at h
  split at h
  · split at h
    · cases h
      simp_all
    · cases h
  · cases h
  · cases h

/-! ### State observed at the end of a stage, successful or not -/

@[simp] theorem resSt_ok (s : St) : resSt (Except.ok s) = s := rfl

@[simp] theorem resSt_error (e : String × St) :
    resSt (Except.error e) = e.2 := rfl

theorem copyDirectory_shape (sp tp : List String) (s : St) :
    ∃ f, copyDirectory sp tp s = { s with fs := f } := by
  unfold copyDirectory
  split
  · exact ⟨_, rfl⟩
  · exact ⟨s.fs, rfl⟩

theorem rmDir_err_inv (dirPath : List String) (s : St) (m : String)
    (s2 : St)
    (h : rmDirectoryRecursive dirPath s = Except.error (m, s2)) :
    s2 = s := by
  unfold rmDirectoryRecursive at h
  split at h
  · split at h
    · cases h
    · cases h; rfl
  · cases h; rfl
  · cases h; rfl


/-- Composition step for stage traces: prepending one batch of emitted
entries to the trace of the remaining actions. -/
theorem trace_step (e : List LogEntry) (s s1 : St)
    (r : Except (String × St) St)
    (h1 : s1.logs = s.logs ++ e)
    (h1a : s1.archives = s.archives) (h1c : s1.cwd = s.cwd)
    (hS : ∀ l ∈ e, sideLog l)
    (H : ∃ t, (resSt r).logs = s1.logs ++ t ∧ (∀ l ∈ t, sideLog l)
        ∧ (resSt r).archives = s1.archives ∧ (resSt r).cwd = s1.cwd) :
    ∃ t, (resSt r).logs = s.logs ++ t ∧ (∀ l ∈ t, sideLog l)
        ∧ (resSt r).archives = s.archives ∧ (resSt r).cwd = s.cwd := by
  obtain ⟨t, ht, hs, ha, hc⟩ := H
  refine ⟨e ++ t, by rw [ht, h1, List.append_assoc], ?_,
    by rw [ha, h1a], by rw [hc, h1c]⟩
  intro l hl
  rcases List.mem_append.1 hl with h | h
  · exact hS l h
  · exact hs l h

theorem sideLog_single (x : LogEntry) (hx : sideLog x) :
    ∀ l ∈ [x], sideLog l := by
  intro l hl
  rw [List.mem_singleton] at hl
  subst hl
  exact hx

theorem sideLog_pair (x y : LogEntry) (hx : sideLog x) (hy : sideLog y) :
    ∀ l ∈ [x, y], sideLog l := by
  intro l hl
  rcases List.mem_pair.1 hl with rfl | rfl
  · exact hx
  · exact hy

theorem sideLog_actionLog (lv : LogLevel) (m : String)
    (h : lv ≠ LogLevel.error) : sideLog ⟨lv, "action", m⟩ :=
  ⟨h, fun hh => absurd hh (show ¬ ("action" : String) = "main" by decide)⟩

theorem sideLog_copyLog (lv : LogLevel) (m : String)
    (h : lv ≠ LogLevel.error) : sideLog ⟨lv, "copy", m⟩ :=
  ⟨h, fun hh => absurd hh (show ¬ ("copy" : String) = "main" by decide)⟩

theorem sideLog_mainWarn (m : String) :
    sideLog ⟨LogLevel.warn, "main", m⟩ :=
  ⟨show LogLevel.warn ≠ LogLevel.error by decide, fun _ => rfl⟩


theorem rmDir_resSt (p : List String) (s : St) :
    ∃ f, resSt (rmDirectoryRecursive p s) = { s with fs := f } := by
  unfold rmDirectoryRecursive
  split
  · split
    · exact ⟨_, rfl⟩
    · exact ⟨s.fs, rfl⟩
  · exact ⟨s.fs, rfl⟩
  · exact ⟨s.fs, rfl⟩

theorem rmDir_trace (p : List String) (s : St) :
    ∃ t, (resSt (rmDirectoryRecursive p s)).logs = s.logs ++ t
      ∧ (∀ l ∈ t, sideLog l)
      ∧ (resSt (rmDirectoryRecursive p s)).archives = s.archives
      ∧ (resSt (rmDirectoryRecursive p s)).cwd = s.cwd := by
  obtain ⟨f, hf⟩ := rmDir_resSt p s
  rw [hf]
  exact ⟨[], by simp, by simp, rfl, rfl⟩

theorem deleteActionStep_trace (wp : List String) (itemName : String)
    (s : St) :
    ∃ t, (resSt (deleteActionStep wp itemName s)).logs = s.logs ++ t
      ∧ (∀ l ∈ t, sideLog l)
      ∧ (resSt (deleteActionStep wp itemName s)).archives = s.archives
      ∧ (resSt (deleteActionStep wp itemName s)).cwd = s.cwd := by
  simp only [deleteActionStep]
  cases hl : lookupE s.fs (wp ++ [itemName]) with
  | none =>
    exact ⟨[⟨.info, "action", s!"DELETE \"{itemName}\""⟩], rfl,
      sideLog_single _ (sideLog_actionLog LogLevel.info _ (by decide)),
      rfl, rfl⟩
  | some e =>
    rcases e with c | _ | es
    · exact ⟨[⟨.info, "action", s!"DELETE \"{itemName}\""⟩], rfl,
        sideLog_single _ (sideLog_actionLog LogLevel.info _ (by decide)),
        rfl, rfl⟩
    · exact ⟨[⟨.info, "action", s!"DELETE \"{itemName}\""⟩,
        ⟨.warn, "action",
          s!"path \"{renderPath (wp ++ [itemName])}\" is not either file or directory"⟩],
        by simp,
        sideLog_pair _ _ (sideLog_actionLog LogLevel.info _ (by decide))
          (sideLog_actionLog LogLevel.warn _ (by decide)),
        rfl, rfl⟩
    · exact trace_step [⟨.info, "action", s!"DELETE \"{itemName}\""⟩] s
        { s with logs := s.logs ++
            [⟨.info, "action", s!"DELETE \"{itemName}\""⟩] }
        (rmDirectoryRecursive (wp ++ [itemName])
          { s with logs := s.logs ++
              [⟨.info, "action", s!"DELETE \"{itemName}\""⟩] })
        rfl rfl rfl
        (sideLog_single _ (sideLog_actionLog LogLevel.info _ (by decide)))
        (rmDir_trace _ _)

theorem commandActionStep_trace (exec : ExecOracle) (commandLine : String)
    (wp : List String) (s : St) :
    ∃ t, (resSt (commandActionStep exec commandLine wp s)).logs = s.logs ++ t
      ∧ (∀ l ∈ t, sideLog l)
      ∧ (resSt (commandActionStep exec commandLine wp s)).archives = s.archives
      ∧ (resSt (commandActionStep exec commandLine wp s)).cwd = s.cwd := by
  simp only [commandActionStep]
  cases hx : exec commandLine wp s.fs with
  | ok fs2 =>
    exact ⟨[⟨.info, "action", s!"COMMAND \"{commandLine}\""⟩], rfl,
      sideLog_single _ (sideLog_actionLog LogLevel.info _ (by decide)),
      rfl, rfl⟩
  | error m =>
    exact ⟨[⟨.info, "action", s!"COMMAND \"{commandLine}\""⟩], rfl,
      sideLog_single _ (sideLog_actionLog LogLevel.info _ (by decide)),
      rfl, rfl⟩

theorem processAction_trace (exec : ExecOracle) (stn : String)
    (wp : List String) (action : List String) (s : St) :
    ∃ t, (resSt (processAction exec stn wp action s)).logs = s.logs ++ t
      ∧ (∀ l ∈ t, sideLog l)
      ∧ (resSt (processAction exec stn wp action s)).archives = s.archives
      ∧ (resSt (processAction exec stn wp action s)).cwd = s.cwd := by
  simp only [processAction]
  by_cases hd : action.headD ("undefined") = "delete"
  · rw [if_pos hd]
    exact deleteActionStep_trace _ _ _
  · rw [if_neg hd]
    by_cases hc : action.headD ("undefined") = "command"
    · rw [if_pos hc]
      exact commandActionStep_trace _ _ _ _
    · rw [if_neg hc]
      exact
        (let actionType := action.headD ("undefined")
        ⟨[⟨.warn, "main", s!"unknown action \"{actionType}\" in {stn}"⟩],
          rfl, sideLog_single _ (sideLog_mainWarn _), rfl, rfl⟩)

theorem processActionsGo_trace (exec : ExecOracle) (stn : String)
    (wp : List String) :
    ∀ (acts : List (List String)) (s : St),
      ∃ t, (resSt (processActionsGo exec stn wp acts s)).logs = s.logs ++ t
        ∧ (∀ l ∈ t, sideLog l)
        ∧ (resSt (processActionsGo exec stn wp acts s)).archives = s.archives
        ∧ (resSt (processActionsGo exec stn wp acts s)).cwd = s.cwd := by
  intro acts
  induction acts with
  | nil =>
    exact fun s => ⟨[], by simp [processActionsGo], by simp,
      by simp [processActionsGo], by simp [processActionsGo]⟩
  | cons action rest ih =>
    intro s
    simp only [processActionsGo]
    obtain ⟨t, ht, hside, harc, hcwd⟩ := processAction_trace exec stn wp action s
    cases hpa : processAction exec stn wp action s with
    | ok s1 =>
      rw [hpa] at ht harc hcwd
      simp only [resSt_ok] at ht harc hcwd
      exact trace_step t s s1 _ ht harc hcwd hside (ih s1)
    | error e =>
      rw [hpa] at ht harc hcwd
      simp only [resSt_error] at ht harc hcwd
      exact ⟨t, ht, hside, harc, hcwd⟩

theorem processActions_trace (exec : ExecOracle) (stn : String)
    (wp : List String) (acts : List (List String)) (s : St) :
    ∃ t, (resSt (processActions exec stn wp acts s)).logs
        = s.logs ++ [chdirTrace wp] ++ t
      ∧ (∀ l ∈ t, sideLog l)
      ∧ (resSt (processActions exec stn wp acts s)).archives = s.archives
      ∧ (resSt (processActions exec stn wp acts s)).cwd = wp := by
  unfold processActions
  obtain ⟨t, ht, hside, harc, hcwd⟩ :=
    processActionsGo_trace exec stn wp acts
      { s with cwd := wp, logs := s.logs ++ [chdirTrace wp] }
  exact ⟨t, ht, hside, harc, hcwd⟩

theorem trace_step_st (e : List LogEntry) (s s1 r : St)
    (h1 : s1.logs = s.logs ++ e)
    (h1a : s1.archives = s.archives) (h1c : s1.cwd = s.cwd)
    (hS : ∀ l ∈ e, sideLog l)
    (H : ∃ t, r.logs = s1.logs ++ t ∧ (∀ l ∈ t, sideLog l)
        ∧ r.archives = s1.archives ∧ r.cwd = s1.cwd) :
    ∃ t, r.logs = s.logs ++ t ∧ (∀ l ∈ t, sideLog l)
        ∧ r.archives = s.archives ∧ r.cwd = s.cwd := by
  obtain ⟨t, ht, hs, ha, hc⟩ := H
  refine ⟨e ++ t, by rw [ht, h1, List.append_assoc], ?_,
    by rw [ha, h1a], by rw [hc, h1c]⟩
  intro l hl
  rcases List.mem_append.1 hl with h | h
  · exact hS l h
  · exact hs l h

theorem processCopyGo_trace (wp tgt : List String) :
    ∀ (files : List String) (s : St),
      ∃ t, (processCopyGo wp tgt files s).logs = s.logs ++ t
        ∧ (∀ l ∈ t, sideLog l)
        ∧ (processCopyGo wp tgt files s).archives = s.archives
        ∧ (processCopyGo wp tgt files s).cwd = s.cwd := by
  intro files
  induction files with
  | nil => exact fun s => ⟨[], by simp [processCopyGo], by simp,
      by simp [processCopyGo], by simp [processCopyGo]⟩
  | cons itemName rest ih =>
    intro s
    simp only [processCopyGo]
    cases hl : lookupE s.fs (wp ++ [itemName]) with
    | none =>
      exact trace_step_st _ s
        { s with logs := s.logs ++
            [⟨.warn, "copy",
              s!"item \"{renderPath (wp ++ [itemName])}\" not exists, skip"⟩] }
        _ rfl rfl rfl
        (sideLog_single _ (sideLog_copyLog LogLevel.warn _ (by decide)))
        (ih _)
    | some e =>
      rcases e with c | _ | es
      · exact trace_step_st _ s
          { s with
              logs := s.logs ++
                [⟨.trace, "copy", s!"copy file \"{itemName}\""⟩],
              fs := updateE s.fs (tgt ++ [itemName]) (some (.file c)) }
          _ rfl rfl rfl
          (sideLog_single _ (sideLog_copyLog LogLevel.trace _ (by decide)))
          (ih _)
      · exact trace_step_st _ s
          { s with logs := s.logs ++
              [⟨.warn, "copy",
                s!"item \"{renderPath (wp ++ [itemName])}\" is not either a file or a directory"⟩] }
          _ rfl rfl rfl
          (sideLog_single _ (sideLog_copyLog LogLevel.warn _ (by decide)))
          (ih _)
      · obtain ⟨f, hf⟩ := copyDirectory_shape (wp ++ [itemName]) (tgt ++ [itemName])
          { s with logs := s.logs ++ [⟨.trace, "copy", s!"copy directory \"{itemName}\""⟩] }
        rw [hf]
        exact trace_step_st _ s
          { s with
              logs := s.logs ++
                [⟨.trace, "copy", s!"copy directory \"{itemName}\""⟩],
              fs := f }
          _ rfl rfl rfl
          (sideLog_single _ (sideLog_copyLog LogLevel.trace _ (by decide)))
          (ih _)

theorem processCopy_trace (wp tgt : List String) (files : List String)
    (s : St) :
    ∃ t, (processCopy wp tgt files s).logs = s.logs ++ t
      ∧ (∀ l ∈ t, sideLog l)
      ∧ (processCopy wp tgt files s).archives = s.archives
      ∧ (processCopy wp tgt files s).cwd = s.cwd := by
  unfold processCopy
  split
  · exact processCopyGo_trace wp tgt files s
  · exact processCopyGo_trace wp tgt files _

theorem processPack_eq (wp : List String) (tf : String) (s : St) :
    processPack wp tf s
      = Except.ok
          { s with
              logs := s.logs ++ [chdirTrace wp],
              archives := s.archives ++ [(tf, lookupE s.fs wp)] } := rfl

theorem stageMarker_logs (m : String) (s : St) :
    (stageMarker m s).logs = s.logs ++ [mainInfo m] := rfl

theorem stageMarker_fs (m : String) (s : St) :
    (stageMarker m s).fs = s.fs := rfl

theorem stageMarker_archives (m : String) (s : St) :
    (stageMarker m s).archives = s.archives := rfl

theorem stageMarker_cwd (m : String) (s : St) :
    (stageMarker m s).cwd = s.cwd := rfl

/-! ### Frame lemmas for the copy stage -/

theorem isPathUnder_refl : ∀ (p : List String), isPathUnder p p = true
  | [] => rfl
  | b :: bs => by simp [isPathUnder, isPathUnder_refl bs]

theorem frame_point (e : Entry) (p tgt q : List String) (v : Option Entry)
    (hp : isPathUnder tgt p = true)
    (h1 : isPathUnder tgt q = false) (h2 : isPathUnder q tgt = false) :
    lookupE (updateE e p v) q = lookupE e q := by
  apply lookupE_updateE_frame
  · cases hx : isPathUnder p q
    · rfl
    · exact absurd (isPathUnder_trans tgt p q hp hx) (by simp [h1])
  · cases hx : isPathUnder q p
    · rfl
    · rcases isPathUnder_comparable q tgt p hx hp with h | h
      · exact absurd h (by simp [h2])
      · exact absurd h (by simp [h1])

theorem copyDirectory_frame (sp tp : List String) (s : St)
    (tgt q : List String)
    (htp : isPathUnder tgt tp = true)
    (h1 : isPathUnder tgt q = false) (h2 : isPathUnder q tgt = false) :
    lookupE (copyDirectory sp tp s).fs q = lookupE s.fs q := by
  unfold copyDirectory
  split
  · exact frame_point _ _ _ _ _ htp h1 h2
  · rfl

theorem processCopyGo_frame (wp tgt : List String) :
    ∀ (files : List String) (s : St) (q : List String),
      isPathUnder tgt q = false → isPathUnder q tgt = false →
      lookupE (processCopyGo wp tgt files s).fs q = lookupE s.fs q := by
  intro files
  induction files with
  | nil => intro s q h1 h2; rfl
  | cons itemName rest ih =>
    intro s q h1 h2
    simp only [processCopyGo]
    cases hl : lookupE s.fs (wp ++ [itemName]) with
    | none => exact ih _ q h1 h2
    | some e =>
      rcases e with c | _ | es
      · rw [ih _ q h1 h2]
        exact frame_point _ _ _ _ _ (isPathUnder_self_append tgt [itemName]) h1 h2
      · exact ih _ q h1 h2
      · rw [ih _ q h1 h2]
        exact copyDirectory_frame _ _ _ tgt q
          (isPathUnder_self_append tgt [itemName]) h1 h2

theorem processCopy_frame (wp tgt : List String) (files : List String)
    (s : St) (q : List String)
    (h1 : isPathUnder tgt q = false) (h2 : isPathUnder q tgt = false) :
    lookupE (processCopy wp tgt files s).fs q = lookupE s.fs q := by
  unfold processCopy
  split
  · exact processCopyGo_frame wp tgt files s q h1 h2
  · rw [processCopyGo_frame wp tgt files _ q h1 h2]
    exact frame_point _ _ _ _ _ (isPathUnder_refl tgt) h1 h2

/-! ### C2 -/

/-- C2: the timestamp is NOT the spec's `YYYYMMDDHHMMSS`: the source
builds `timeText` from `getMonth()` (zero-based month) and `getDay()`
(day of the week).  At the wall clock 2021-01-05 12:30:45 (a Tuesday)
the code produces `"20210002123045"` — month field `00`, day field `02`
— where the documented format demands `"20210105123045"`.  The same
(wrong) string is used in both the staging directory name and the
archive file name. -/
theorem c2_timestamp_eval :
    timeText wc0 = "20210002123045"
    ∧ specTimestampText wc0 = "20210105123045"
    ∧ timeText wc0 ≠ specTimestampText wc0
    ∧ tempDirNameOf cfg0 wc0 = "demo-" ++ timeText wc0
    ∧ targetFileNameOf cfg0 wc0 = "demo." ++ timeText wc0 ++ ".zip" := by
  refine ⟨rfl, rfl, ?_, rfl, rfl⟩
  decide

/-! ### C4 -/

/-- C4: an unrecognized action tag is non-fatal (the run completes and
returns its archive path), but the warning does not always name the
stage the action belongs to: for an unknown tag in `packBefore` the
emitted warning says `in copyBefore`, because `processConfig` passes the
stage-name literal `'copyBefore'` to the pack stages.  The `main`-logger
records of the run show the warning sitting inside the `run packBefore`
stage while naming `copyBefore`. -/
theorem c4_unknown_tag_mislabels_stage :
    ∃ ret s2,
      processConfig execOk wc0 cfg4 (["proj"]) (["tmp"]) st0
          = Except.ok (ret, s2)
      ∧ s2.logs.filter (fun l => l.logger == "main")
          = [mainInfo ("run copyBefore"), mainInfo ("run copy"),
             mainInfo ("run copyAfter"), mainInfo ("run packBefore"),
             ⟨.warn, "main", "unknown action \"noop\" in copyBefore"⟩,
             mainInfo ("run pack"), mainInfo ("run packAfter")] :=
  ⟨_, _, rfl, rfl⟩

/-! ### C7 -/

/-- C7: a `delete` action whose resolved target does not exist is a
silent no-op: the loop emits only the `DELETE` info entry (no warning,
no error) and continues with the remaining actions of the stage. -/
theorem c7_delete_missing_silent_noop (exec : ExecOracle) (stn : String)
    (wp : List String) (itemName : String) (rest : List (List String))
    (s : St) (h : lookupE s.fs (wp ++ [itemName]) = none) :
    processActionsGo exec stn wp ((["delete", itemName]) :: rest) s
      = processActionsGo exec stn wp rest
          { s with logs := s.logs ++
              [⟨.info, "action", s!"DELETE \"{itemName}\""⟩] } := by
  simp [processActionsGo, processAction, deleteActionStep, h]

/-- Witness for C7 at a concrete state: deleting the missing `nope`
emits only the `DELETE` info record and the stage goes on. -/
theorem c7_witness :
    processActionsGo execOk ("copyBefore") (["proj"])
        ((["delete", "nope"]) :: []) st0
      = processActionsGo execOk ("copyBefore") (["proj"]) []
          { st0 with logs := st0.logs ++
              [⟨.info, "action", "DELETE \"nope\""⟩] } :=
  c7_delete_missing_silent_noop execOk ("copyBefore") (["proj"]) ("nope")
    [] st0 rfl

/-! ### C9 -/

/-- C9: a top-level copy source that is neither file nor directory is
warned about on the `copy` logger and skipped (the loop continues, no
failure), while inside `copyDirectory` such an entry is skipped with no
log at all — `copyDirectory` never touches the log, and `copyEntry`
drops `other` entries from the mirrored listing. -/
theorem c9_copy_skip_asymmetry :
    (∀ (wp tgt : List String) (itemName : String) (rest : List String)
       (s : St),
       lookupE s.fs (wp ++ [itemName]) = some Entry.other →
       processCopyGo wp tgt (itemName :: rest) s
         = processCopyGo wp tgt rest
             { s with logs := s.logs ++
                 [⟨.warn, "copy",
                   s!"item \"{renderPath (wp ++ [itemName])}\" is not either a file or a directory"⟩] })
    ∧ (∀ (sp tp : List String) (s : St),
        (copyDirectory sp tp s).logs = s.logs)
    ∧ (∀ (t : Option Entry), copyEntry Entry.other t = none)
    ∧ (∀ (n : String) (ses tes : Entries),
        copyEntriesM (Entries.cons n Entry.other ses) tes
          = copyEntriesM ses tes) := by
  refine ⟨?_, ?_, fun t => rfl, fun n ses tes => rfl⟩
  · intro wp tgt itemName rest s h
    simp [processCopyGo, h]
  · intro sp tp s
    obtain ⟨f, hf⟩ := copyDirectory_shape sp tp s
    rw [hf]

/-- Witness for C9 at a concrete state holding an `other` entry. -/
theorem c9_witness :
    processCopyGo (["proj"]) (["tmp", "x"]) (("weird") :: []) stOther
      = processCopyGo (["proj"]) (["tmp", "x"]) []
          { stOther with logs := stOther.logs ++
              [⟨.warn, "copy",
                "item \"proj/weird\" is not either a file or a directory"⟩] }
    ∧ (copyDirectory (["proj"]) (["tmp", "x"]) stOther).logs = stOther.logs
    ∧ copyEntry Entry.other none = none :=
  ⟨c9_copy_skip_asymmetry.1 (["proj"]) (["tmp", "x"]) ("weird") [] stOther
      rfl,
    c9_copy_skip_asymmetry.2.1 (["proj"]) (["tmp", "x"]) stOther,
    c9_copy_skip_asymmetry.2.2.1 none⟩

/-! ### C10 -/

/-- C10: the copy stage writes only below the staging directory: every
path that is neither below the staging root nor an ancestor of it reads
the same before and after `processCopy` (and after any `copyDirectory`
whose target lies below the staging root); in particular, when the
staging root and the project root are not nested one inside the other,
every path at or below the project root — the source tree — is
untouched. -/
theorem c10_copy_frame :
    (∀ (wp tgt : List String) (files : List String) (s : St)
       (q : List String),
       isPathUnder tgt q = false → isPathUnder q tgt = false →
       lookupE (processCopy wp tgt files s).fs q = lookupE s.fs q)
    ∧ (∀ (sp tp tgt : List String) (s : St) (q : List String),
       isPathUnder tgt tp = true →
       isPathUnder tgt q = false → isPathUnder q tgt = false →
       lookupE (copyDirectory sp tp s).fs q = lookupE s.fs q)
    ∧ (∀ (wp tgt : List String) (files : List String) (s : St)
       (q : List String),
       isPathUnder wp tgt = false → isPathUnder tgt wp = false →
       isPathUnder wp q = true →
       lookupE (processCopy wp tgt files s).fs q = lookupE s.fs q) := by
  refine ⟨fun wp tgt files s q h1 h2 => processCopy_frame wp tgt files s q h1 h2,
    fun sp tp tgt s q htp h1 h2 => copyDirectory_frame sp tp s tgt q htp h1 h2,
    ?_⟩
  intro wp tgt files s q hwt htw hq
  apply processCopy_frame
  · cases hx : isPathUnder tgt q
    · rfl
    · rcases isPathUnder_comparable wp tgt q hq hx with h | h
      · exact absurd h (by simp [hwt])
      · exact absurd h (by simp [htw])
  · cases hx : isPathUnder q tgt
    · rfl
    · exact absurd (isPathUnder_trans wp q tgt hq hx) (by simp [hwt])

/-- Witness for C10: copying `a.txt` and `sub` from `proj` into the
staging directory `tmp/d` leaves the source entries intact. -/
theorem c10_witness :
    lookupE (processCopy (["proj"]) (["tmp", "d"]) (["a.txt", "sub"]) st0).fs
        (["proj", "a.txt"])
      = lookupE st0.fs (["proj", "a.txt"])
    ∧ lookupE (processCopy (["proj"]) (["tmp", "d"]) (["a.txt", "sub"]) st0).fs
        (["proj", "sub", "b.txt"])
      = lookupE st0.fs (["proj", "sub", "b.txt"]) :=
  ⟨c10_copy_frame.2.2 (["proj"]) (["tmp", "d"]) (["a.txt", "sub"]) st0
      (["proj", "a.txt"]) rfl rfl rfl,
    c10_copy_frame.2.2 (["proj"]) (["tmp", "d"]) (["a.txt", "sub"]) st0
      (["proj", "sub", "b.txt"]) rfl rfl rfl⟩

/-! ### C6 -/

/-- C6: recursive tree removal of a directory of files and
subdirectories succeeds and removes the directory itself together with
everything below it; as soon as the tree holds an entry that is neither
file nor directory, `rmDirectoryRecursive` rejects with the
`cannot remove` error instead of skipping, and a stage failure (such as
a failing delete in `copyBefore`) propagates to the whole pipeline. -/
theorem c6_remove_tree_strict :
    (∀ (p : List String) (s : St) (es : Entries),
       lookupE s.fs p = some (Entry.dir es) → p ≠ [] →
       (hasOtherEs es = false →
         rmDirectoryRecursive p s
             = Except.ok { s with fs := updateE s.fs p none }
         ∧ lookupE (updateE s.fs p none) p = none
         ∧ (∀ q, lookupE (updateE s.fs p none) (p ++ q) = none))
       ∧ (hasOtherEs es = true →
          ∃ m, rmDirectoryRecursive p s = Except.error (m, s)))
    ∧ (∀ (exec : ExecOracle) (t : WallClock) (config : Configuration)
        (wp tmp : List String) (s : St) (e : String × St),
        processActions exec ("copyBefore") wp config.copyBefore
            (stageMarker ("run copyBefore") s) = Except.error e →
        processConfig exec t config wp tmp s = Except.error e) := by
  constructor
  · intro p s es hl hne
    constructor
    · intro hclean
      have hsome : (lookupE s.fs p).isSome := by rw [hl]; rfl
      have hnone : lookupE (updateE s.fs p none) p = none :=
        lookupE_updateE_self p s.fs none hsome hne
      refine ⟨rmDir_ok p s es hl hclean, hnone, ?_⟩
      intro q
      rw [lookupE_append p q, hnone]
      rfl
    · intro hdirty
      exact rmDir_err p s es hl hdirty
  · intro exec t config wp tmp s e h
    unfold processConfig
    rw [h]

/-- Witness for C6: a clean tree is removed whole, a tree holding an
`other` entry makes the removal (and a pipeline whose `copyBefore`
deletes it) fail. -/
theorem c6_witness :
    (rmDirectoryRecursive (["d"]) stClean
        = Except.ok { stClean with fs := updateE stClean.fs (["d"]) none }
      ∧ lookupE (updateE stClean.fs (["d"]) none) (["d"]) = none
      ∧ (∀ q, lookupE (updateE stClean.fs (["d"]) none) (["d"] ++ q) = none))
    ∧ (∃ m, rmDirectoryRecursive (["d"]) stDirty = Except.error (m, stDirty))
    ∧ (∃ e, processActions execOk ("copyBefore") ([]) cfgDel.copyBefore
          (stageMarker ("run copyBefore") stDirty) = Except.error e
        ∧ processConfig execOk wc0 cfgDel ([]) (["tmp"]) stDirty
            = Except.error e) :=
  ⟨(c6_remove_tree_strict.1 (["d"]) stClean _ rfl (by simp)).1 rfl,
    (c6_remove_tree_strict.1 (["d"]) stDirty _ rfl (by simp)).2 rfl,
    ⟨_, rfl,
      c6_remove_tree_strict.2 execOk wc0 cfgDel ([]) (["tmp"]) stDirty _
        rfl⟩⟩

/-! ### C3 -/

/-- C3: a fully successful run returns
`{config.targetPath}/{config.name}.{timeText}.zip`, and its final steps
switch the working directory back to the project root and delete the
staging directory, which therefore no longer resolves afterwards. -/
theorem c3_success_path_and_cleanup (exec : ExecOracle) (t : WallClock)
    (config : Configuration) (wp tmp : List String) (s : St)
    (ret : String) (s2 : St)
    (h : processConfig exec t config wp tmp s = Except.ok (ret, s2)) :
    ret = config.targetPath ++ "/"
        ++ (config.name ++ "." ++ timeText t ++ ".zip")
    ∧ s2.cwd = wp
    ∧ lookupE s2.fs (tmp ++ [config.name ++ "-" ++ timeText t]) = none := by
  unfold processConfig at h
  split at h
  · exact Except.noConfusion h
  · rename_i s1 heq1
    split at h
    · exact Except.noConfusion h
    · rename_i s5 heq2
      split at h
      · exact Except.noConfusion h
      · rename_i s7 heq3
        split at h
        · exact Except.noConfusion h
        · rename_i s9 heq4
          split at h
          · exact Except.noConfusion h
          · rename_i s11 heq5
            split at h
            · exact Except.noConfusion h
            · rename_i s13 heq6
              injection h with hh
              injection hh with ha hb
              subst ha
              subst hb
              obtain ⟨hfs, hlogs, harc, hcwd, hsome⟩ :=
                rmDir_ok_inv _ _ _ heq6
              refine ⟨rfl, ?_, ?_⟩
              · rw [hcwd]
              · rw [hfs]
                exact lookupE_updateE_self _ _ none hsome
                  (by simp [tempDirPathOf])

/-- Witness for C3 on the sample project: the run returns
`/out/demo.20210002123045.zip`, restores the working directory and
leaves no staging directory behind. -/
theorem c3_witness :
    ∃ ret s2,
      processConfig execOk wc0 cfg0 (["proj"]) (["tmp"]) st0
          = Except.ok (ret, s2)
      ∧ (ret = cfg0.targetPath ++ "/"
            ++ (cfg0.name ++ "." ++ timeText wc0 ++ ".zip")
        ∧ s2.cwd = ["proj"]
        ∧ lookupE s2.fs (["tmp"] ++ [cfg0.name ++ "-" ++ timeText wc0])
            = none) :=
  ⟨_, _, rfl,
    c3_success_path_and_cleanup execOk wc0 cfg0 (["proj"]) (["tmp"]) st0
      _ _ rfl⟩

/-! ### Log bookkeeping across the whole pipeline -/

@[simp] theorem pipeSt_ok (r : String × St) :
    pipeSt (Except.ok r) = r.2 := rfl

@[simp] theorem pipeSt_error (e : String × St) :
    pipeSt (Except.error e) = e.2 := rfl

theorem mainInfo_notMem_actions (exec : ExecOracle) (stn : String)
    (wp : List String) (acts : List (List String)) (s : St) (m : String)
    (hm : mainInfo m ∉ s.logs) :
    mainInfo m ∉ (resSt (processActions exec stn wp acts s)).logs := by
  obtain ⟨t, ht, hside, -, -⟩ := processActions_trace exec stn wp acts s
  rw [ht]
  intro hmem
  rcases List.mem_append.1 hmem with hmem | hmem
  · rcases List.mem_append.1 hmem with hmem | hmem
    · exact hm hmem
    · rw [List.mem_singleton] at hmem
      exact absurd hmem (by simp [mainInfo, chdirTrace])
  · exact absurd ((hside _ hmem).2 rfl)
      (show ¬ (LogLevel.info = LogLevel.warn) by decide)

theorem mainInfo_notMem_copy (wp tgt : List String)
    (files : List String) (s : St) (m : String)
    (hm : mainInfo m ∉ s.logs) :
    mainInfo m ∉ (processCopy wp tgt files s).logs := by
  obtain ⟨t, ht, hside, -, -⟩ := processCopy_trace wp tgt files s
  rw [ht]
  intro hmem
  rcases List.mem_append.1 hmem with hmem | hmem
  · exact hm hmem
  · exact absurd ((hside _ hmem).2 rfl)
      (show ¬ (LogLevel.info = LogLevel.warn) by decide)

theorem mainInfo_notMem_marker (m m2 : String) (s : St) (hne : m ≠ m2)
    (hm : mainInfo m ∉ s.logs) :
    mainInfo m ∉ (stageMarker m2 s).logs := by
  rw [stageMarker_logs]
  intro hmem
  rcases List.mem_append.1 hmem with hmem | hmem
  · exact hm hmem
  · rw [List.mem_singleton] at hmem
    exact hne (by simpa [mainInfo] using hmem)

theorem mainInfo_notMem_pack (wp : List String) (tf : String) (s : St)
    (m : String) (hm : mainInfo m ∉ s.logs) :
    mainInfo m ∉ (resSt (processPack wp tf s)).logs := by
  rw [processPack_eq, resSt_ok]
  intro hmem
  rcases List.mem_append.1 hmem with hmem | hmem
  · exact hm hmem
  · rw [List.mem_singleton] at hmem
    exact absurd hmem (by simp [mainInfo, chdirTrace])

theorem errFree_nil : errFree [] := fun x hx => absurd hx (List.not_mem_nil x)

theorem errFree_append (a b : List LogEntry) (ha : errFree a)
    (hb : errFree b) : errFree (a ++ b) := by
  intro x hx
  rcases List.mem_append.1 hx with hx | hx
  · exact ha x hx
  · exact hb x hx

theorem errFree_chdir (wp : List String) : errFree [chdirTrace wp] := by
  intro x hx
  rw [List.mem_singleton] at hx
  subst hx
  exact (show LogLevel.trace ≠ LogLevel.error by decide)

theorem errFree_actions (exec : ExecOracle) (stn : String)
    (wp : List String) (acts : List (List String)) (s : St)
    (h : errFree s.logs) :
    errFree (resSt (processActions exec stn wp acts s)).logs := by
  obtain ⟨t, ht, hside, -, -⟩ := processActions_trace exec stn wp acts s
  rw [ht]
  exact errFree_append _ _ (errFree_append _ _ h (errFree_chdir wp))
    (fun x hx => (hside x hx).1)

theorem errFree_copy (wp tgt : List String) (files : List String)
    (s : St) (h : errFree s.logs) :
    errFree (processCopy wp tgt files s).logs := by
  obtain ⟨t, ht, hside, -, -⟩ := processCopy_trace wp tgt files s
  rw [ht]
  exact errFree_append _ _ h (fun x hx => (hside x hx).1)

theorem errFree_marker (m : String) (s : St) (h : errFree s.logs) :
    errFree (stageMarker m s).logs := by
  rw [stageMarker_logs]
  refine errFree_append _ _ h ?_
  intro x hx
  rw [List.mem_singleton] at hx
  subst hx
  exact (show LogLevel.info ≠ LogLevel.error by decide)

theorem errFree_pack (wp : List String) (tf : String) (s : St)
    (h : errFree s.logs) :
    errFree (resSt (processPack wp tf s)).logs := by
  rw [processPack_eq, resSt_ok]
  exact errFree_append _ _ h (errFree_chdir wp)

theorem errFree_rm (p : List String) (s : St) (h : errFree s.logs) :
    errFree (resSt (rmDirectoryRecursive p s)).logs := by
  obtain ⟨f, hf⟩ := rmDir_resSt p s
  rw [hf]
  exact h

theorem errFree_processConfig (exec : ExecOracle) (t : WallClock)
    (config : Configuration) (wp tmp : List String) (s : St)
    (h : errFree s.logs) :
    errFree (pipeSt (processConfig exec t config wp tmp s)).logs := by
  unfold processConfig
  have e0 : errFree (stageMarker ("run copyBefore") s).logs :=
    errFree_marker _ s h
  split
  · rename_i e heq
    have := errFree_actions exec ("copyBefore") wp config.copyBefore _ e0
    rw [heq] at this
    simpa using this
  · rename_i s1 heq1
    have hs1 : errFree s1.logs := by
      have := errFree_actions exec ("copyBefore") wp config.copyBefore _ e0
      rw [heq1] at this
      simpa using this
    have e2 : errFree (stageMarker ("run copyAfter")
        (processCopy wp (tempDirPathOf config t tmp) config.files
          (stageMarker ("run copy") s1))).logs :=
      errFree_marker _ _ (errFree_copy _ _ _ _ (errFree_marker _ _ hs1))
    split
    · rename_i e heq
      have := errFree_actions exec ("copyAfter") wp config.copyAfter _ e2
      rw [heq] at this
      simpa using this
    · rename_i s5 heq2
      have hs5 : errFree s5.logs := by
        have := errFree_actions exec ("copyAfter") wp config.copyAfter _ e2
        rw [heq2] at this
        simpa using this
      have e3 : errFree (stageMarker ("run packBefore") s5).logs :=
        errFree_marker _ _ hs5
      split
      · rename_i e heq
        have := errFree_actions exec ("copyBefore")
          (tempDirPathOf config t tmp) config.packBefore _ e3
        rw [heq] at this
        simpa using this
      · rename_i s7 heq3
        have hs7 : errFree s7.logs := by
          have := errFree_actions exec ("copyBefore")
            (tempDirPathOf config t tmp) config.packBefore _ e3
          rw [heq3] at this
          simpa using this
        have e4 : errFree (stageMarker ("run pack") s7).logs :=
          errFree_marker _ _ hs7
        split
        · rename_i e heq
          have := errFree_pack (tempDirPathOf config t tmp)
            (pathJoinS config.targetPath (targetFileNameOf config t)) _ e4
          rw [heq] at this
          simpa using this
        · rename_i s9 heq4
          have hs9 : errFree s9.logs := by
            have := errFree_pack (tempDirPathOf config t tmp)
              (pathJoinS config.targetPath (targetFileNameOf config t)) _ e4
            rw [heq4] at this
            simpa using this
          have e5 : errFree (stageMarker ("run packAfter") s9).logs :=
            errFree_marker _ _ hs9
          split
          · rename_i e heq
            have := errFree_actions exec ("copyBefore")
              (tempDirPathOf config t tmp) config.packAfter _ e5
            rw [heq] at this
            simpa using this
          · rename_i s11 heq5
            have hs11 : errFree s11.logs := by
              have := errFree_actions exec ("copyBefore")
                (tempDirPathOf config t tmp) config.packAfter _ e5
              rw [heq5] at this
              simpa using this
            split
            · rename_i e heq
              have := errFree_rm (tempDirPathOf config t tmp)
                { s11 with cwd := wp } hs11
              rw [heq] at this
              simpa using this
            · rename_i s13 heq6
              have := errFree_rm (tempDirPathOf config t tmp)
                { s11 with cwd := wp } hs11
              rw [heq6] at this
              simpa using this

theorem readConfig_err_inv (decode : String → Configuration)
    (wp : List String) (s : St) (e : String) (s2 : St)
    (h : readConfig decode wp s = Except.error (e, s2)) : s2 = s := by
  unfold readConfig at h
  split at h
  · cases h; rfl
  · cases h
  · cases h; rfl

/-! ### C5 -/

/-- C5 counterexample: on a fatal condition (missing `zmpack.json`) the
process logs the single top-level error but terminates with exit status
0, not a non-zero one: the claim "logs a single top-level error and
exits with a non-zero exit code (when any fatal condition occurs)" fails
on this run. -/
theorem c5_counterexample :
    (mainRun execOk decode0 wc0 (["proj"]) (["tmp"]) stNoCfg).1
        = [⟨.error, "main", "\"zmpack.json\" is required"⟩]
    ∧ (mainRun execOk decode0 wc0 (["proj"]) (["tmp"]) stNoCfg).2 = 0
    ∧ ¬ (((mainRun execOk decode0 wc0 (["proj"]) (["tmp"]) stNoCfg).1
            = [⟨.error, "main", "\"zmpack.json\" is required"⟩]
          ∧ (mainRun execOk decode0 wc0 (["proj"]) (["tmp"]) stNoCfg).2 ≠ 0)
        ∨ ((∃ (p : String), (⟨.info, "main", s!"packed on \"{p}\""⟩ : LogEntry)
              ∈ (mainRun execOk decode0 wc0 (["proj"]) (["tmp"]) stNoCfg).1)
          ∧ (mainRun execOk decode0 wc0 (["proj"]) (["tmp"]) stNoCfg).2
              = 0)) := by
  refine ⟨rfl, rfl, ?_⟩
  rintro (⟨h1, h2⟩ | ⟨⟨p, hp⟩, h2⟩)
  · exact h2 rfl
  · rw [show (mainRun execOk decode0 wc0 (["proj"]) (["tmp"]) stNoCfg).1
        = [⟨.error, "main", "\"zmpack.json\" is required"⟩] from rfl,
      List.mem_singleton] at hp
    simp at hp

/-- C5 amended: every run exits with status 0 — the top-level `.catch`
handler only logs the rejection and `process.exit` is never called — and
the log stream either ends in a single top-level `error`-level record
(fatal path, nothing before it is `error`-level) or ends in the
`packed on "<path>"` info record with no `error`-level record at all
(success path). -/
theorem c5_exit_always_zero (exec : ExecOracle)
    (decode : String → Configuration) (t : WallClock)
    (wp tmp : List String) (s : St) (hlogs : s.logs = []) :
    (mainRun exec decode t wp tmp s).2 = 0
    ∧ ((∃ (lgs : List LogEntry) (e : String),
          (mainRun exec decode t wp tmp s).1
            = lgs ++ [⟨.error, "main", e⟩] ∧ errFree lgs)
      ∨ (∃ (lgs : List LogEntry) (p : String),
          (mainRun exec decode t wp tmp s).1
            = lgs ++ [⟨.info, "main", s!"packed on \"{p}\""⟩]
          ∧ errFree ((mainRun exec decode t wp tmp s).1))) := by
  have hEF : errFree s.logs := by
    rw [hlogs]
    exact errFree_nil
  unfold mainRun
  split
  · rename_i e s2 heq
    have hs2 : s2 = s := readConfig_err_inv decode wp s e s2 heq
    subst hs2
    exact ⟨rfl, Or.inl ⟨s2.logs, e, rfl, hEF⟩⟩
  · rename_i config heq
    split
    · rename_i e s2 heq2
      refine ⟨rfl, Or.inl ⟨s2.logs, e, rfl, ?_⟩⟩
      have := errFree_processConfig exec t config wp tmp s hEF
      rw [heq2] at this
      simpa using this
    · rename_i tfp s2 heq2
      refine ⟨rfl, Or.inr ⟨s2.logs, tfp, rfl, ?_⟩⟩
      have hs2 : errFree s2.logs := by
        have := errFree_processConfig exec t config wp tmp s hEF
        rw [heq2] at this
        simpa using this
      refine errFree_append _ _ hs2 ?_
      intro x hx
      rw [List.mem_singleton] at hx
      subst hx
      exact (show LogLevel.info ≠ LogLevel.error by decide)

/-- Witness for the amended C5 on the missing-configuration run. -/
theorem c5_witness :
    (mainRun execOk decode0 wc0 (["proj"]) (["tmp"]) stNoCfg).2 = 0
    ∧ ((∃ (lgs : List LogEntry) (e : String),
          (mainRun execOk decode0 wc0 (["proj"]) (["tmp"]) stNoCfg).1
            = lgs ++ [⟨.error, "main", e⟩] ∧ errFree lgs)
      ∨ (∃ (lgs : List LogEntry) (p : String),
          (mainRun execOk decode0 wc0 (["proj"]) (["tmp"]) stNoCfg).1
            = lgs ++ [⟨.info, "main", s!"packed on \"{p}\""⟩]
          ∧ errFree ((mainRun execOk decode0 wc0 (["proj"]) (["tmp"]) stNoCfg).1))) :=
  c5_exit_always_zero execOk decode0 wc0 (["proj"]) (["tmp"]) stNoCfg rfl

/-! ### C8 -/

/-- C8: a command action whose execution fails rethrows immediately: in
any stage the loop stops at the failing command — the resulting state
carries only the `COMMAND` log of that action, none of the later
actions' — and a pipeline whose `packBefore` starts with such a command
never reaches the `pack` or `packAfter` stages (their `run ...` markers
are absent from the final log) and ends in an error. -/
theorem c8_command_failure_halts (exec : ExecOracle) (cmd msg : String)
    (config : Configuration) (rest : List (List String)) (t : WallClock)
    (wp tmp : List String)
    (hexec : ∀ (w : List String) (fs : Entry),
      exec cmd w fs = Except.error msg)
    (hpb : config.packBefore = (["command", cmd]) :: rest) :
    (∀ (stn : String) (w : List String) (acts : List (List String))
       (s : St),
       processActionsGo exec stn w ((["command", cmd]) :: acts) s
         = Except.error (msg,
             { s with logs := s.logs ++
                 [⟨.info, "action", s!"COMMAND \"{cmd}\""⟩] }))
    ∧ (∀ (s : St),
        mainInfo ("run pack") ∉ s.logs →
        mainInfo ("run packAfter") ∉ s.logs →
        ∃ e st2, processConfig exec t config wp tmp s
            = Except.error (e, st2)
          ∧ mainInfo ("run pack") ∉ st2.logs
          ∧ mainInfo ("run packAfter") ∉ st2.logs) := by
  have hGo : ∀ (stn : String) (w : List String)
      (acts : List (List String)) (s : St),
      processActionsGo exec stn w ((["command", cmd]) :: acts) s
        = Except.error (msg,
            { s with logs := s.logs ++
                [⟨.info, "action", s!"COMMAND \"{cmd}\""⟩] }) := by
    intro stn w acts s
    simp only [processActionsGo, processAction, List.headD_cons,
      List.getD_cons_succ, List.getD_cons_zero, if_true]
    simp only [commandActionStep]
    rw [hexec, if_neg (show ¬ ("command" : String) = "delete" by decide)]
  refine ⟨hGo, ?_⟩
  intro s hn1 hn2
  unfold processConfig
  split
  · rename_i e heq
    rcases e with ⟨m1, st1⟩
    have h1 := mainInfo_notMem_actions exec ("copyBefore") wp
      config.copyBefore (stageMarker ("run copyBefore") s) ("run pack")
      (mainInfo_notMem_marker _ _ s (by decide) hn1)
    have h2 := mainInfo_notMem_actions exec ("copyBefore") wp
      config.copyBefore (stageMarker ("run copyBefore") s) ("run packAfter")
      (mainInfo_notMem_marker _ _ s (by decide) hn2)
    rw [heq] at h1 h2
    exact ⟨m1, st1, rfl, by simpa using h1, by simpa using h2⟩
  · rename_i s1 heq1
    have hs1a : mainInfo ("run pack") ∉ s1.logs := by
      have h1 := mainInfo_notMem_actions exec ("copyBefore") wp
        config.copyBefore (stageMarker ("run copyBefore") s) ("run pack")
        (mainInfo_notMem_marker _ _ s (by decide) hn1)
      rw [heq1] at h1
      simpa using h1
    have hs1b : mainInfo ("run packAfter") ∉ s1.logs := by
      have h2 := mainInfo_notMem_actions exec ("copyBefore") wp
        config.copyBefore (stageMarker ("run copyBefore") s)
        ("run packAfter")
        (mainInfo_notMem_marker _ _ s (by decide) hn2)
      rw [heq1] at h2
      simpa using h2
    have hc1 : mainInfo ("run pack") ∉ (stageMarker ("run copyAfter")
        (processCopy wp (tempDirPathOf config t tmp) config.files
          (stageMarker ("run copy") s1))).logs :=
      mainInfo_notMem_marker _ _ _ (by decide)
        (mainInfo_notMem_copy _ _ _ _ _
          (mainInfo_notMem_marker _ _ _ (by decide) hs1a))
    have hc2 : mainInfo ("run packAfter") ∉ (stageMarker ("run copyAfter")
        (processCopy wp (tempDirPathOf config t tmp) config.files
          (stageMarker ("run copy") s1))).logs :=
      mainInfo_notMem_marker _ _ _ (by decide)
        (mainInfo_notMem_copy _ _ _ _ _
          (mainInfo_notMem_marker _ _ _ (by decide) hs1b))
    split
    · rename_i e heq
      rcases e with ⟨m1, st1⟩
      have h1 := mainInfo_notMem_actions exec ("copyAfter") wp
        config.copyAfter _ ("run pack") hc1
      have h2 := mainInfo_notMem_actions exec ("copyAfter") wp
        config.copyAfter _ ("run packAfter") hc2
      rw [heq] at h1 h2
      exact ⟨m1, st1, rfl, by simpa using h1, by simpa using h2⟩
    · rename_i s5 heq2
      have hs5a : mainInfo ("run pack") ∉ s5.logs := by
        have h1 := mainInfo_notMem_actions exec ("copyAfter") wp
          config.copyAfter _ ("run pack") hc1
        rw [heq2] at h1
        simpa using h1
      have hs5b : mainInfo ("run packAfter") ∉ s5.logs := by
        have h2 := mainInfo_notMem_actions exec ("copyAfter") wp
          config.copyAfter _ ("run packAfter") hc2
        rw [heq2] at h2
        simpa using h2
      split
      · rename_i e heq
        rcases e with ⟨m1, st1⟩
        have h1 := mainInfo_notMem_actions exec ("copyBefore")
          (tempDirPathOf config t tmp) config.packBefore
          (stageMarker ("run packBefore") s5) ("run pack")
          (mainInfo_notMem_marker _ _ s5 (by decide) hs5a)
        have h2 := mainInfo_notMem_actions exec ("copyBefore")
          (tempDirPathOf config t tmp) config.packBefore
          (stageMarker ("run packBefore") s5) ("run packAfter")
          (mainInfo_notMem_marker _ _ s5 (by decide) hs5b)
        rw [heq] at h1 h2
        exact ⟨m1, st1, rfl, by simpa using h1, by simpa using h2⟩
      · rename_i s7 heq3
        exfalso
        unfold processActions at heq3
        rw [hpb, hGo] at heq3
        exact Except.noConfusion heq3

/-- Witness for C8: with `packBefore: [["command","false"]]` the loop
halts at the command and the pipeline errors without reaching `pack` or
`packAfter`. -/
theorem c8_witness :
    (processActionsGo execFalseFails ("copyBefore") (["proj"])
        ((["command", "false"]) :: []) st0
      = Except.error ("Command failed: false",
          { st0 with logs := st0.logs ++
              [⟨.info, "action", "COMMAND \"false\""⟩] }))
    ∧ (∃ e st2, processConfig execFalseFails wc0 cfg8 (["proj"]) (["tmp"])
          st0 = Except.error (e, st2)
        ∧ mainInfo ("run pack") ∉ st2.logs
        ∧ mainInfo ("run packAfter") ∉ st2.logs) := by
  have C := c8_command_failure_halts execFalseFails ("false")
    ("Command failed: false") cfg8 [] wc0 (["proj"]) (["tmp"])
    (fun w fs => rfl) rfl
  exact ⟨C.1 ("copyBefore") (["proj"]) [] st0,
    C.2 st0 (by simp [st0]) (by simp [st0])⟩

/-! ### C1 -/

/-- C1: a successful run performs exactly the six stages in order — the
`copyBefore` actions against the project root (`chdir to` the project
root), the copy into the staging directory, the `copyAfter` actions
against the project root, the `packBefore` actions against the staging
directory, the archiving of the staging directory (recorded with the
staging snapshot), the `packAfter` actions against the staging
directory — and finally the staging directory is deleted: its path no
longer resolves in the final state. -/
theorem c1_pipeline_stage_order (exec : ExecOracle) (t : WallClock)
    (config : Configuration) (wp tmp : List String) (s : St)
    (ret : String) (s2 : St)
    (h : processConfig exec t config wp tmp s = Except.ok (ret, s2)) :
    ∃ (l1 l2 l3 l4 l5 : List LogEntry) (zipped : Option Entry),
      s2.logs = s.logs
        ++ [mainInfo ("run copyBefore"), chdirTrace wp] ++ l1
        ++ [mainInfo ("run copy")] ++ l2
        ++ [mainInfo ("run copyAfter"), chdirTrace wp] ++ l3
        ++ [mainInfo ("run packBefore"),
            chdirTrace (tempDirPathOf config t tmp)] ++ l4
        ++ [mainInfo ("run pack"), chdirTrace (tempDirPathOf config t tmp),
            mainInfo ("run packAfter"),
            chdirTrace (tempDirPathOf config t tmp)] ++ l5
      ∧ s2.archives = s.archives ++ [(ret, zipped)]
      ∧ lookupE s2.fs (tempDirPathOf config t tmp) = none := by
  unfold processConfig at h
  split at h
  · exact Except.noConfusion h
  · rename_i s1 heq1
    split at h
    · exact Except.noConfusion h
    · rename_i s5 heq2
      split at h
      · exact Except.noConfusion h
      · rename_i s7 heq3
        split at h
        · exact Except.noConfusion h
        · rename_i s9 heq4
          split at h
          · exact Except.noConfusion h
          · rename_i s11 heq5
            split at h
            · exact Except.noConfusion h
            · rename_i s13 heq6
              injection h with hh
              injection hh with ha hb
              subst ha
              subst hb
              rw [processPack_eq] at heq4
              injection heq4 with h9
              obtain ⟨t1, ht1, -, ha1, -⟩ :=
                processActions_trace exec ("copyBefore") wp
                  config.copyBefore (stageMarker ("run copyBefore") s)
              rw [heq1, resSt_ok] at ht1 ha1
              obtain ⟨t2, ht2, -, ha2, -⟩ :=
                processCopy_trace wp (tempDirPathOf config t tmp)
                  config.files (stageMarker ("run copy") s1)
              obtain ⟨t3, ht3, -, ha3, -⟩ :=
                processActions_trace exec ("copyAfter") wp
                  config.copyAfter
                  (stageMarker ("run copyAfter")
                    (processCopy wp (tempDirPathOf config t tmp)
                      config.files (stageMarker ("run copy") s1)))
              rw [heq2, resSt_ok] at ht3 ha3
              obtain ⟨t4, ht4, -, ha4, -⟩ :=
                processActions_trace exec ("copyBefore")
                  (tempDirPathOf config t tmp) config.packBefore
                  (stageMarker ("run packBefore") s5)
              rw [heq3, resSt_ok] at ht4 ha4
              obtain ⟨t5, ht5, -, ha5, -⟩ :=
                processActions_trace exec ("copyBefore")
                  (tempDirPathOf config t tmp) config.packAfter
                  (stageMarker ("run packAfter") s9)
              rw [heq5, resSt_ok] at ht5 ha5
              obtain ⟨hfs, hlogs13, harc13, hcwd13, hsome⟩ :=
                rmDir_ok_inv _ _ _ heq6
              have hs9logs : s9.logs
                  = (stageMarker ("run pack") s7).logs
                    ++ [chdirTrace (tempDirPathOf config t tmp)] := by
                rw [← h9]
              have hs9arc : s9.archives
                  = s7.archives
                    ++ [(pathJoinS config.targetPath
                          (targetFileNameOf config t),
                        lookupE s7.fs (tempDirPathOf config t tmp))] := by
                rw [← h9]
                rfl
              have hl13 : s13.logs = s11.logs := hlogs13
              have harc13b : s13.archives = s11.archives := harc13
              have hfs13 : s13.fs
                  = updateE s11.fs (tempDirPathOf config t tmp) none := hfs
              have hsome13 :
                  (lookupE s11.fs (tempDirPathOf config t tmp)).isSome :=
                hsome
              have ha5b : s11.archives = s9.archives := ha5
              have ha4b : s7.archives = s5.archives := ha4
              have ha3b : s5.archives
                  = (processCopy wp (tempDirPathOf config t tmp)
                      config.files (stageMarker ("run copy") s1)).archives :=
                ha3
              have ha2b : (processCopy wp (tempDirPathOf config t tmp)
                  config.files (stageMarker ("run copy") s1)).archives
                  = s1.archives := ha2
              have ha1b : s1.archives = s.archives := ha1
              refine ⟨t1, t2, t3, t4, t5,
                lookupE s7.fs (tempDirPathOf config t tmp), ?_, ?_, ?_⟩
              · simp only [stageMarker_logs] at ht1 ht2 ht3 ht4 ht5 hs9logs
                rw [hl13, ht5, hs9logs, ht4, ht3, ht2, ht1]
                simp [List.append_assoc]
              · rw [harc13b, ha5b, hs9arc, ha4b, ha3b, ha2b, ha1b]
              · rw [hfs13]
                exact lookupE_updateE_self _ _ none hsome13
                  (by simp [tempDirPathOf])

/-- Witness for C1 on the sample project and configuration. -/
theorem c1_witness :
    ∃ ret s2,
      processConfig execOk wc0 cfg0 (["proj"]) (["tmp"]) st0
          = Except.ok (ret, s2)
      ∧ (∃ (l1 l2 l3 l4 l5 : List LogEntry) (zipped : Option Entry),
          s2.logs = st0.logs
            ++ [mainInfo ("run copyBefore"), chdirTrace (["proj"])] ++ l1
            ++ [mainInfo ("run copy")] ++ l2
            ++ [mainInfo ("run copyAfter"), chdirTrace (["proj"])] ++ l3
            ++ [mainInfo ("run packBefore"),
                chdirTrace (tempDirPathOf cfg0 wc0 (["tmp"]))] ++ l4
            ++ [mainInfo ("run pack"),
                chdirTrace (tempDirPathOf cfg0 wc0 (["tmp"])),
                mainInfo ("run packAfter"),
                chdirTrace (tempDirPathOf cfg0 wc0 (["tmp"]))] ++ l5
          ∧ s2.archives = st0.archives ++ [(ret, zipped)]
          ∧ lookupE s2.fs (tempDirPathOf cfg0 wc0 (["tmp"])) = none) :=
  ⟨_, _, rfl,
    c1_pipeline_stage_order execOk wc0 cfg0 (["proj"]) (["tmp"]) st0 _ _
      rfl⟩

end ZmPack
